import Mathlib

/-!
Shallow embedding of the wallet transfer service
(`wallet/views.py`, `wallet/serializers.py`, `wallet/models.py`,
`wallet/tasks.py`).

Money is modelled as `ℚ` (Python `Decimal` arithmetic is exact on finite
decimals).  A parsed `Decimal` literal is a coefficient together with its
count of fractional digits (`Dec`), which is what DRF's precision
validation inspects.  The database state is a record of user ids, wallet
rows `(user_id, balance)`, the transaction ledger, and the next primary
key for `Transaction` rows.  Each HTTP endpoint becomes a function from
state and request data to new state and outcome; Django's
`transaction.atomic` rollback is modelled by returning the state as it
was at entry to the atomic block when the block raises.
-/

namespace WalletApp

/-- A finite decimal value: integer coefficient `m` with `e` fractional
digits, denoting `m / 10 ^ e`.  Mirrors Python `Decimal`'s
coefficient/exponent representation for non-positive exponents. -/
structure Dec where
  m : ℤ
  e : ℕ
deriving DecidableEq, Repr

/-- The rational value of a parsed decimal. -/
def Dec.val (d : Dec) : ℚ := (d.m : ℚ) / (10 : ℚ) ^ d.e

/-- Numeric value of a decimal digit character. -/
def digitVal (c : Char) : ℕ := c.toNat - 48

/-- Value of a string of decimal digits, most significant first. -/
def digitsToNat (ds : List Char) : ℕ :=
  ds.foldl (fun a c => a * 10 + digitVal c) 0

/-- Split an optional leading sign from a character list; `true` means
negative. -/
def splitSign : List Char → Bool × List Char
  | '-' :: cs => (true, cs)
  | '+' :: cs => (false, cs)
  | cs => (false, cs)

/-- Build the `Dec` denoted by sign, coefficient, fractional-digit count
and exponent, normalising a non-negative final exponent into the
coefficient (as `Decimal('1.2E+3')` does). -/
def mkDec (neg : Bool) (coeff : ℕ) (fracLen : ℕ) (ex : ℤ) : Dec :=
  let m : ℤ := if neg then -(coeff : ℤ) else (coeff : ℤ)
  if (fracLen : ℤ) ≤ ex then
    ⟨m * (10 : ℤ) ^ (ex - (fracLen : ℤ)).toNat, 0⟩
  else
    ⟨m, ((fracLen : ℤ) - ex).toNat⟩

/-- Parse the optional exponent suffix `e±ddd` of a decimal literal; the
suffix must consume the rest of the input. -/
def parseExp : List Char → Option ℤ
  | [] => some 0
  | c :: cs =>
    if c = 'e' ∨ c = 'E' then
      let (xneg, cs1) := splitSign cs
      let xs := cs1.takeWhile Char.isDigit
      let rest := cs1.dropWhile Char.isDigit
      if xs.isEmpty ∨ ¬ rest.isEmpty then none
      else some (if xneg then -(digitsToNat xs : ℤ) else (digitsToNat xs : ℤ))
    else none

/-- Split the fractional part `.ddd` of a decimal literal, if present. -/
def parseFrac : List Char → List Char × List Char
  | '.' :: cs => (cs.takeWhile Char.isDigit, cs.dropWhile Char.isDigit)
  | cs => ([], cs)

/-- Parse a finite decimal literal `[sign] digits [. digits] [(e|E) [sign]
digits]`; at least one digit must be present before the exponent.  This is
Python's `Decimal(str)` constructor restricted to finite values. -/
def decParseChars (cs : List Char) : Option Dec :=
  let (neg, cs1) := splitSign cs
  let intDs := cs1.takeWhile Char.isDigit
  let cs2 := cs1.dropWhile Char.isDigit
  let (fracDs, cs3) := parseFrac cs2
  if intDs.isEmpty ∧ fracDs.isEmpty then none
  else
    match parseExp cs3 with
    | none => none
    | some ex => some (mkDec neg (digitsToNat (intDs ++ fracDs)) fracDs.length ex)

/-- Drop leading and trailing whitespace characters. -/
def trimChars (cs : List Char) : List Char :=
  ((cs.dropWhile Char.isWhitespace).reverse.dropWhile Char.isWhitespace).reverse

/-- Remove underscore grouping: `Decimal` accepts a numeric string "after
leading and trailing whitespace characters, as well as underscores
throughout, are removed". -/
def stripUnderscores (cs : List Char) : List Char :=
  cs.filter (fun c => c ≠ '_')

/-- A Python `Decimal` value as the deposit view can receive it: a finite
decimal, a (possibly signed, possibly diagnostic-carrying) NaN, or a
signed infinity. -/
inductive PyDec
  | finite (d : Dec)
  | nan
  | inf (neg : Bool)
deriving DecidableEq, Repr

/-- Case-insensitive match for the `Inf` / `Infinity` keyword (sign
already removed). -/
def isInfChars (ls : List Char) : Bool :=
  ls = ['i', 'n', 'f'] || ls = ['i', 'n', 'f', 'i', 'n', 'i', 't', 'y']

/-- Case-insensitive match for `NaN digits?` or `sNaN digits?` (sign
already removed). -/
def isNanChars (ls : List Char) : Bool :=
  match ls with
  | 'n' :: 'a' :: 'n' :: rest => rest.all Char.isDigit
  | 's' :: 'n' :: 'a' :: 'n' :: rest => rest.all Char.isDigit
  | _ => false

/-- Python `Decimal(str(x))`: trim whitespace, drop underscore grouping,
then recognise the special values `NaN` / `sNaN` / `Infinity` (the sign
of a NaN is irrelevant to the deposit view, which only compares) or parse
a finite numeric literal. -/
def pyDecParse (s : String) : Option PyDec :=
  let cs := stripUnderscores (trimChars s.toList)
  let (neg, cs1) := splitSign cs
  let ls := cs1.map Char.toLower
  if isInfChars ls then some (.inf neg)
  else if isNanChars ls then some .nan
  else (decParseChars cs).map .finite

/-- The finite decimals accepted by DRF's `DecimalField.to_internal_value`:
`Decimal(data)` followed by the explicit rejection of NaN and the two
infinities (each a validation failure, like an unparsable string). -/
def decParse (s : String) : Option Dec :=
  match pyDecParse s with
  | some (.finite d) => some d
  | _ => none

/-- Number of base-10 digits of `n` (0 for `n = 0`), with explicit fuel so
the recursion is structural. -/
def digitCountF : ℕ → ℕ → ℕ
  | 0, _ => 0
  | fuel + 1, n => if n = 0 then 0 else digitCountF fuel (n / 10) + 1

/-- Number of base-10 digits of `n`; the length of `Decimal`'s digit
tuple for a coefficient `n ≥ 1`. -/
def digitCount (n : ℕ) : ℕ := digitCountF n n

/-- Round a rational to the nearest integer with ties to even
(`ROUND_HALF_EVEN`, the default `Decimal` rounding used by Django's
`format_number`). -/
def roundHalfEven (q : ℚ) : ℤ :=
  let f : ℤ := Int.ediv q.num q.den
  let r : ℤ := q.num - f * q.den
  if 2 * r < (q.den : ℤ) then f
  else if (q.den : ℤ) < 2 * r then f + 1
  else if f % 2 = 0 then f else f + 1

/-- Django's save-time adaptation of the `balance` column
(`DecimalField.get_db_prep_save` → `format_number(value, 19, 2)`): the
value is quantized to two decimal places half-even under a context of
precision 19; `none` models the `InvalidOperation` raised when the
quantized coefficient would exceed 19 digits. -/
def quantize2 (v : ℚ) : Option ℚ :=
  let n := roundHalfEven (v * 100)
  if digitCount n.natAbs ≤ 19 then some ((n : ℚ) / 100) else none

/-- A value on the two-decimal-place grid: an integer number of cents. -/
def onCents (v : ℚ) : Prop := ∃ k : ℤ, v * 100 = (k : ℚ)

/-- Total significant digits of a parsed decimal, as DRF's
`validate_precision` computes it from the digit tuple and exponent. -/
def decTotalDigits (d : Dec) : ℕ :=
  if d.e = 0 then digitCount d.m.natAbs else max (digitCount d.m.natAbs) d.e

/-- DRF `DecimalField.validate_precision` with `max_digits=19`,
`decimal_places=2` (hence `max_whole_digits=17`). -/
def validatePrecision (d : Dec) : Bool :=
  decTotalDigits d ≤ 19 && d.e ≤ 2 && decTotalDigits d - d.e ≤ 17

/-- Model of `TransferSerializer.amount` (`serializers.py`): a
`DecimalField(max_digits=19, decimal_places=2, min_value=Decimal('0.01'))`.
Returns the validated decimal or `none` when validation fails. -/
def transferAmountValidated (s : String) : Option Dec :=
  (decParse s).bind fun d =>
    if validatePrecision d ∧ (1 : ℚ) / 100 ≤ d.val then some d else none

/-- A `Transaction` row (`models.py`): sender, receiver, amount,
creation timestamp and the receipt path backfilled by the Celery task. -/
structure Entry where
  id : ℕ
  sender : ℕ
  receiver : ℕ
  amount : ℚ
  time : ℕ
  receiptPath : String
deriving DecidableEq, Repr

/-- The fields of a ledger entry other than the receipt path. -/
def entryData (t : Entry) : ℕ × ℕ × ℕ × ℚ × ℕ :=
  (t.id, t.sender, t.receiver, t.amount, t.time)

/-- Database state: user ids, wallet rows `(user_id, balance)`, the
transaction ledger, and the next `Transaction` primary key. -/
structure St where
  users : List ℕ
  wallets : List (ℕ × ℚ)
  ledger : List Entry
  nextTxId : ℕ
deriving DecidableEq, Repr

/-- The `user_id` column of the wallet table has a uniqueness constraint
(`OneToOneField`): keys are pairwise distinct. -/
def keysNodup (ws : List (ℕ × ℚ)) : Prop := (ws.map Prod.fst).Nodup

instance (ws : List (ℕ × ℚ)) : Decidable (keysNodup ws) := by
  unfold keysNodup; infer_instance

/-- Balance of the wallet row for `uid`, if any
(`Wallet.objects.get` / `wallet_map[uid]`). -/
def lookupBal : List (ℕ × ℚ) → ℕ → Option ℚ
  | [], _ => none
  | w :: ws, uid => if w.1 = uid then some w.2 else lookupBal ws uid

/-- Model of `Wallet.objects.get_or_create(user=uid)`: returns the (possibly new)
state and the wallet's balance; a fresh wallet has balance 0
(`balance` has `default=Decimal('0.00')`). -/
def getOrCreate (st : St) (uid : ℕ) : St × ℚ :=
  match lookupBal st.wallets uid with
  | some b => (st, b)
  | none => ({ st with wallets := st.wallets ++ [(uid, 0)] }, 0)

/-- The expression `sorted([sender.id, receiver.id])` of `_execute_transfer`: the two
wallet ids in ascending order, lower id first. -/
def walletLockIds (senderId receiverId : ℕ) : List ℕ :=
  if senderId ≤ receiverId then [senderId, receiverId]
  else [receiverId, senderId]

/-- Lock-ordering relation on wallet rows: ascending `user_id`. -/
def byUserId (w₁ w₂ : ℕ × ℚ) : Prop := w₁.1 ≤ w₂.1

instance : DecidableRel byUserId := fun a b => by
  unfold byUserId; infer_instance

instance : IsTotal (ℕ × ℚ) byUserId :=
  ⟨fun a b => Nat.le_total a.1 b.1⟩

instance : IsTrans (ℕ × ℚ) byUserId :=
  ⟨fun _ _ _ h h₂ => Nat.le_trans h h₂⟩

/-- The queryset `Wallet.objects.filter(user_id__in=ids).select_for_update().order_by('user_id')`:
the wallet rows whose user is in `ids`, delivered (and hence locked) in
ascending `user_id` order. -/
def lockWallets (st : St) (ids : List ℕ) : List (ℕ × ℚ) :=
  List.insertionSort byUserId (st.wallets.filter (fun w => decide (w.1 ∈ ids)))

/-- Replace the balance of the row keyed `uid` (a row `save` of a wallet
object whose `balance` attribute was reassigned). -/
def setBalance (ws : List (ℕ × ℚ)) (uid : ℕ) (b : ℚ) : List (ℕ × ℚ) :=
  ws.map (fun w => if w.1 = uid then (uid, b) else w)

/-- Exceptions escaping `_execute_transfer`'s atomic block:
`ValueError('Insufficient funds')`, or a `KeyError` from `wallet_map`
when a locked row is missing. -/
inductive ExecError
  | insufficientFunds
  | missingWallet
deriving DecidableEq, Repr

/-- Model of `TransferView._execute_transfer` (`views.py`): inside
`transaction.atomic()`, lock both wallet rows in ascending id order,
re-check the sender's balance under the lock, debit, credit, save both
rows and append the ledger entry.  An error return means the atomic
block raised, discarding all of these writes. -/
def executeTransfer (st : St) (senderId receiverId : ℕ) (amount : ℚ)
    (now : ℕ) : Except ExecError (St × Entry) :=
  let ids := walletLockIds senderId receiverId
  let rows := lockWallets st ids
  match lookupBal rows senderId, lookupBal rows receiverId with
  | some sBal, some rBal =>
    if sBal < amount then .error .insufficientFunds
    else
      let ws1 := setBalance st.wallets senderId (sBal - amount)
      let ws2 := setBalance ws1 receiverId (rBal + amount)
      let txr : Entry := ⟨st.nextTxId, senderId, receiverId, amount, now, ""⟩
      .ok ({ st with
              wallets := ws2
              ledger := st.ledger ++ [txr]
              nextTxId := st.nextTxId + 1 }, txr)
  | _, _ => .error .missingWallet

/-- Errors of the transfer endpoint, one per 400 response of
`TransferView.post`.  `invalidAmount` and `selfTransfer` are the spec's
InvalidOperation taxon. -/
inductive TransferError
  | invalidAmount
  | selfTransfer
  | receiverNotFound
  | insufficientFunds
deriving DecidableEq, Repr

/-- Whether an error belongs to the spec's InvalidOperation taxon
(bad input shape, malformed amount, self-transfer). -/
def TransferError.isInvalidOperation : TransferError → Bool
  | .invalidAmount => true
  | .selfTransfer => true
  | _ => false

/-- Result of `TransferView.post`: success returns the created ledger
entry; `internalError` marks the unreachable `KeyError` path. -/
inductive TransferOutcome
  | ok (txRecord : Entry)
  | err (e : TransferError)
  | internalError
deriving DecidableEq, Repr

/-- Model of `TransferView.post` (`views.py`): serializer validation, self-transfer
check, receiver-existence check, `get_or_create` for receiver then sender
(outside any atomic block), then `_execute_transfer`; a `ValueError`
becomes a 400 while leaving the state as it was when the atomic block was
entered. -/
def transferPost (st : St) (senderId receiverId : ℕ) (amountData : String)
    (now : ℕ) : St × TransferOutcome :=
  match transferAmountValidated amountData with
  | none => (st, .err .invalidAmount)
  | some d =>
    if receiverId = senderId then (st, .err .selfTransfer)
    else if receiverId ∈ st.users then
      let st1 := (getOrCreate st receiverId).1
      let st2 := (getOrCreate st1 senderId).1
      match executeTransfer st2 senderId receiverId d.val now with
      | .error .insufficientFunds => (st2, .err .insufficientFunds)
      | .error .missingWallet => (st2, .internalError)
      | .ok (st3, txr) => (st3, .ok txr)
    else (st, .err .receiverNotFound)

/-- Result of `DepositView.post`: a 200 with the reported balance, a 400
with an error message, or an unhandled exception (500) escaping the
view. -/
inductive DepositOutcome
  | ok (balance : ℚ)
  | err (msg : String)
  | serverError
deriving DecidableEq, Repr

/-- Model of `DepositView.post` (`views.py`): reject a missing or
unparsable amount, then test `amount <= 0` — which answers for finite
values and infinities but signals `InvalidOperation` on a NaN, an
uncaught exception — otherwise lock-or-create the caller's wallet inside
`transaction.atomic()`, add the amount in memory and save.  The save
quantizes the stored balance (`quantize2`); quantizing an infinity or
overflowing the precision raises, rolling the atomic block (wallet
creation included) back.  The 200 response reports the in-memory,
unquantized balance.  `none` models an absent `amount` key; `some s`
models `str(request.data['amount'])`. -/
def depositPost (st : St) (uid : ℕ) (amountData : Option String) :
    St × DepositOutcome :=
  match amountData with
  | none => (st, .err "Amount is required")
  | some s =>
    match pyDecParse s with
    | none => (st, .err "Invalid amount")
    | some .nan => (st, .serverError)
    | some (.inf true) => (st, .err "Amount must be positive")
    | some (.inf false) => (st, .serverError)
    | some (.finite d) =>
      if d.val ≤ 0 then (st, .err "Amount must be positive")
      else
        let p := getOrCreate st uid
        match quantize2 (p.2 + d.val) with
        | none => (st, .serverError)
        | some q =>
          ({ p.1 with wallets := setBalance p.1.wallets uid q },
           .ok (p.2 + d.val))

/-- Model of `generate_transaction_receipt` (`tasks.py`): look the transaction up
by id; if absent do nothing and return `''`; otherwise write the PDF
(outside the database model — the resulting path is the task's `path`
argument) and save only the `receipt_path` field. -/
def generateTransactionReceipt (st : St) (txId : ℕ) (path : String) :
    St × String :=
  match st.ledger.find? (fun t => t.id == txId) with
  | none => (st, "")
  | some _ =>
    ({ st with
        ledger := st.ledger.map
          (fun t => if t.id = txId then { t with receiptPath := path } else t) },
     path)

/-- States reachable through the exposed operations: any initial user
population with no wallets and an empty ledger, user creation, the
balance endpoint's `get_or_create`, deposits, transfers, and the receipt
backfill task. -/
inductive Reachable : St → Prop
  | init (users : List ℕ) : Reachable ⟨users, [], [], 0⟩
  | addUser {st : St} (uid : ℕ) :
      Reachable st → Reachable { st with users := st.users ++ [uid] }
  | balanceQuery {st : St} (uid : ℕ) :
      Reachable st → Reachable (getOrCreate st uid).1
  | deposit {st : St} (uid : ℕ) (a : Option String) :
      Reachable st → Reachable (depositPost st uid a).1
  | transfer {st : St} (sid rid : ℕ) (a : String) (now : ℕ) :
      Reachable st → Reachable (transferPost st sid rid a now).1
  | receipt {st : St} (txId : ℕ) (path : String) :
      Reachable st → Reachable (generateTransactionReceipt st txId path).1

/-! ### Association-list lemmas for wallet rows -/

theorem lookupBal_append (ws ws' : List (ℕ × ℚ)) (uid : ℕ) :
    lookupBal (ws ++ ws') uid =
      match lookupBal ws uid with
      | some b => some b
      | none => lookupBal ws' uid := by
  induction ws with
  | nil => simp [lookupBal]
  | cons w ws ih =>
    by_cases h : w.1 = uid <;> simp [lookupBal, h, ih]

theorem lookupBal_eq_none_iff (ws : List (ℕ × ℚ)) (uid : ℕ) :
    lookupBal ws uid = none ↔ uid ∉ ws.map Prod.fst := by
  induction ws with
  | nil => simp [lookupBal]
  | cons w ws ih =>
    by_cases h : w.1 = uid
    · simp [lookupBal, h]
    · rw [List.map_cons]
      simp only [lookupBal, if_neg h, ih, List.mem_cons, not_or]
      have hne : uid ≠ w.1 := fun he => h he.symm
      simp [hne]

theorem mem_of_lookupBal_eq_some {ws : List (ℕ × ℚ)} {uid : ℕ} {b : ℚ}
    (h : lookupBal ws uid = some b) : (uid, b) ∈ ws := by
  induction ws with
  | nil => simp [lookupBal] at h
  | cons w ws ih =>
    by_cases hw : w.1 = uid
    · rw [lookupBal, if_pos hw] at h
      have hb : w.2 = b := Option.some_injective _ h
      have hwe : (uid, b) = w := by
        cases w with
        | mk k v =>
          cases hw
          cases hb
          rfl
      rw [hwe]
      exact List.mem_cons_self _ _
    · rw [lookupBal, if_neg hw] at h
      exact List.mem_cons_of_mem _ (ih h)

theorem lookupBal_eq_some_of_mem {ws : List (ℕ × ℚ)} {uid : ℕ} {b : ℚ}
    (hN : keysNodup ws) (h : (uid, b) ∈ ws) : lookupBal ws uid = some b := by
  induction ws with
  | nil => simp at h
  | cons w ws ih =>
    rcases List.mem_cons.mp h with rfl | hmem
    · simp [lookupBal]
    · have hkey : uid ∈ ws.map Prod.fst :=
        List.mem_map.mpr ⟨(uid, b), hmem, rfl⟩
      have hw : w.1 ≠ uid := by
        intro he
        exact (List.nodup_cons.mp hN).1 (he ▸ hkey)
      simp only [lookupBal, hw, if_neg, not_false_iff]
      exact ih (List.nodup_cons.mp hN).2 hmem

theorem keysNodup_of_perm {l₁ l₂ : List (ℕ × ℚ)} (hp : l₁.Perm l₂)
    (h : keysNodup l₁) : keysNodup l₂ :=
  ((hp.map Prod.fst).nodup_iff).mp h

theorem lookupBal_eq_of_perm {l₁ l₂ : List (ℕ × ℚ)} (hN : keysNodup l₁)
    (hp : l₁.Perm l₂) (uid : ℕ) : lookupBal l₁ uid = lookupBal l₂ uid := by
  cases hb : lookupBal l₁ uid with
  | some b =>
    exact (lookupBal_eq_some_of_mem (keysNodup_of_perm hp hN)
      (hp.mem_iff.mp (mem_of_lookupBal_eq_some hb))).symm
  | none =>
    have : uid ∉ l₂.map Prod.fst := fun hm =>
      ((lookupBal_eq_none_iff l₁ uid).mp hb) (((hp.map Prod.fst).mem_iff).mpr hm)
    exact ((lookupBal_eq_none_iff l₂ uid).mpr this).symm

theorem setBalance_keys (ws : List (ℕ × ℚ)) (uid : ℕ) (b : ℚ) :
    (setBalance ws uid b).map Prod.fst = ws.map Prod.fst := by
  induction ws with
  | nil => rfl
  | cons w ws ih =>
    by_cases h : w.1 = uid
    · simp only [setBalance, List.map_cons] at ih ⊢
      rw [if_pos h]
      simp [ih, h]
    · simp only [setBalance, List.map_cons] at ih ⊢
      rw [if_neg h]
      simp [ih]

theorem lookupBal_cons (w : ℕ × ℚ) (ws : List (ℕ × ℚ)) (uid : ℕ) :
    lookupBal (w :: ws) uid = if w.1 = uid then some w.2 else lookupBal ws uid :=
  rfl

theorem lookupBal_setBalance_self (ws : List (ℕ × ℚ)) (uid : ℕ) (b : ℚ) :
    lookupBal (setBalance ws uid b) uid =
      if uid ∈ ws.map Prod.fst then some b else none := by
  induction ws with
  | nil => simp [setBalance, lookupBal]
  | cons w ws ih =>
    simp only [setBalance, List.map_cons] at ih ⊢
    by_cases h : w.1 = uid
    · rw [if_pos h]
      simp [lookupBal_cons, h]
    · rw [if_neg h, lookupBal_cons, if_neg h, ih]
      have hne : uid ≠ w.1 := fun he => h he.symm
      by_cases hm : uid ∈ List.map Prod.fst ws
      · rw [if_pos hm, if_pos (List.mem_cons_of_mem _ hm)]
      · rw [if_neg hm, if_neg (by simp [List.mem_cons, hne, hm])]

theorem lookupBal_setBalance_ne {uid' uid : ℕ} (ws : List (ℕ × ℚ)) (b : ℚ)
    (h : uid' ≠ uid) :
    lookupBal (setBalance ws uid b) uid' = lookupBal ws uid' := by
  induction ws with
  | nil => rfl
  | cons w ws ih =>
    simp only [setBalance, List.map_cons] at ih ⊢
    by_cases hw : w.1 = uid
    · have h₁ : ¬ ((uid, b) : ℕ × ℚ).1 = uid' := Ne.symm h
      have h₂ : ¬ w.1 = uid' := by rw [hw]; exact Ne.symm h
      rw [if_pos hw, lookupBal_cons, lookupBal_cons, if_neg h₁, if_neg h₂, ih]
    · rw [if_neg hw, lookupBal_cons, lookupBal_cons, ih]

theorem mem_setBalance {p : ℕ × ℚ} {ws : List (ℕ × ℚ)} {uid : ℕ} {b : ℚ}
    (h : p ∈ setBalance ws uid b) : p = (uid, b) ∨ p ∈ ws := by
  obtain ⟨w, hw, hmap⟩ := List.mem_map.mp h
  by_cases hk : w.1 = uid
  · simp only [hk, if_pos] at hmap
    exact Or.inl hmap.symm
  · simp only [hk, if_neg, not_false_iff] at hmap
    exact Or.inr (hmap ▸ hw)

/-! ### Lemmas about `getOrCreate` -/

theorem getOrCreate_users (st : St) (uid : ℕ) :
    (getOrCreate st uid).1.users = st.users := by
  unfold getOrCreate
  cases lookupBal st.wallets uid <;> rfl

theorem getOrCreate_ledger (st : St) (uid : ℕ) :
    (getOrCreate st uid).1.ledger = st.ledger := by
  unfold getOrCreate
  cases lookupBal st.wallets uid <;> rfl

theorem getOrCreate_nextTxId (st : St) (uid : ℕ) :
    (getOrCreate st uid).1.nextTxId = st.nextTxId := by
  unfold getOrCreate
  cases lookupBal st.wallets uid <;> rfl

theorem getOrCreate_balance (st : St) (uid : ℕ) :
    (getOrCreate st uid).2 = (lookupBal st.wallets uid).getD 0 := by
  unfold getOrCreate
  cases h : lookupBal st.wallets uid <;> rfl

theorem lookupBal_getOrCreate_self (st : St) (uid : ℕ) :
    lookupBal (getOrCreate st uid).1.wallets uid =
      some ((lookupBal st.wallets uid).getD 0) := by
  unfold getOrCreate
  cases h : lookupBal st.wallets uid with
  | some b => simpa using h
  | none =>
    simp only [Option.getD_none]
    rw [lookupBal_append, h]
    simp [lookupBal_cons]

theorem lookupBal_getOrCreate_ne {uid' uid : ℕ} (st : St) (h : uid' ≠ uid) :
    lookupBal (getOrCreate st uid).1.wallets uid' = lookupBal st.wallets uid' := by
  unfold getOrCreate
  cases hb : lookupBal st.wallets uid with
  | some b => rfl
  | none =>
    simp only
    rw [lookupBal_append]
    cases hb' : lookupBal st.wallets uid' with
    | some b => rfl
    | none => simp [lookupBal_cons, Ne.symm h, lookupBal]

theorem lookupBal_getOrCreate_mono {st : St} {uid' : ℕ} {b : ℚ} (uid : ℕ)
    (h : lookupBal st.wallets uid' = some b) :
    lookupBal (getOrCreate st uid).1.wallets uid' = some b := by
  unfold getOrCreate
  cases hb : lookupBal st.wallets uid with
  | some c => exact h
  | none =>
    simp only
    rw [lookupBal_append, h]

theorem keysNodup_getOrCreate {st : St} (uid : ℕ) (h : keysNodup st.wallets) :
    keysNodup (getOrCreate st uid).1.wallets := by
  unfold getOrCreate
  cases hb : lookupBal st.wallets uid with
  | some c => exact h
  | none =>
    have hmem : uid ∉ st.wallets.map Prod.fst :=
      (lookupBal_eq_none_iff _ _).mp hb
    simp only [keysNodup, List.map_append]
    rw [List.nodup_append]
    refine ⟨h, List.nodup_singleton _, ?_⟩
    intro x hx hx'
    simp only [List.map_cons, List.map_nil, List.mem_singleton] at hx'
    exact hmem (hx' ▸ hx)

theorem mem_getOrCreate_wallets {st : St} {p : ℕ × ℚ} (uid : ℕ)
    (h : p ∈ (getOrCreate st uid).1.wallets) :
    p ∈ st.wallets ∨ p = (uid, 0) := by
  unfold getOrCreate at h
  cases hb : lookupBal st.wallets uid with
  | some c => rw [hb] at h; exact Or.inl h
  | none =>
    rw [hb] at h
    simp only [List.mem_append, List.mem_singleton] at h
    exact h

/-! ### Lemmas about `lockWallets` and the lock order -/

theorem lockWallets_perm (st : St) (ids : List ℕ) :
    (lockWallets st ids).Perm
      (st.wallets.filter (fun w => decide (w.1 ∈ ids))) :=
  List.perm_insertionSort byUserId _

theorem mem_lockWallets {st : St} {ids : List ℕ} {p : ℕ × ℚ}
    (h : p ∈ lockWallets st ids) : p ∈ st.wallets :=
  List.mem_of_mem_filter ((lockWallets_perm st ids).mem_iff.mp h)

theorem keysNodup_filter (p : ℕ × ℚ → Bool) {ws : List (ℕ × ℚ)}
    (h : keysNodup ws) : keysNodup (ws.filter p) := by
  have hs : (ws.filter p).Sublist ws := List.filter_sublist ws
  exact (hs.map Prod.fst).nodup h

theorem lookupBal_filter (ws : List (ℕ × ℚ)) (ids : List ℕ) (uid : ℕ) :
    lookupBal (ws.filter (fun w => decide (w.1 ∈ ids))) uid =
      if uid ∈ ids then lookupBal ws uid else none := by
  induction ws with
  | nil => simp [lookupBal]
  | cons w ws ih =>
    rw [List.filter_cons]
    by_cases hk : w.1 = uid
    · subst hk
      by_cases hc : w.1 ∈ ids
      · simp [hc, lookupBal_cons, ih]
      · simp [hc, lookupBal_cons, ih]
    · by_cases hc : w.1 ∈ ids
      · simp [hc, lookupBal_cons, hk, ih]
      · simp [hc, lookupBal_cons, hk, ih]

theorem lookupBal_lockWallets (st : St) (ids : List ℕ) (uid : ℕ)
    (hN : keysNodup st.wallets) :
    lookupBal (lockWallets st ids) uid =
      if uid ∈ ids then lookupBal st.wallets uid else none := by
  rw [← lookupBal_filter st.wallets ids uid]
  exact (lookupBal_eq_of_perm
    (keysNodup_filter _ hN) (lockWallets_perm st ids).symm uid).symm

theorem mem_walletLockIds_left (s r : ℕ) : s ∈ walletLockIds s r := by
  unfold walletLockIds
  split <;> simp

theorem mem_walletLockIds_right (s r : ℕ) : r ∈ walletLockIds s r := by
  unfold walletLockIds
  split <;> simp

/-! ### Lemmas about amount validation -/

theorem transferAmountValidated_min {s : String} {d : Dec}
    (h : transferAmountValidated s = some d) : (1 : ℚ) / 100 ≤ d.val := by
  unfold transferAmountValidated at h
  cases hp : decParse s with
  | none => rw [hp] at h; cases h
  | some d0 =>
    rw [hp] at h
    simp only [Option.some_bind] at h
    by_cases hc : (validatePrecision d0 : Prop) ∧ (1 : ℚ) / 100 ≤ d0.val
    · rw [if_pos hc] at h
      obtain rfl : d0 = d := Option.some_injective _ h
      exact hc.2
    · rw [if_neg hc] at h
      cases h

theorem transferAmountValidated_pos {s : String} {d : Dec}
    (h : transferAmountValidated s = some d) : 0 < d.val :=
  lt_of_lt_of_le (by norm_num) (transferAmountValidated_min h)

/-! ### Lemmas about `executeTransfer` -/

theorem executeTransfer_ok {st : St} {sid rid : ℕ} {amt : ℚ} {now : ℕ}
    {bs br : ℚ} (hN : keysNodup st.wallets)
    (hs : lookupBal st.wallets sid = some bs)
    (hr : lookupBal st.wallets rid = some br)
    (hge : ¬ bs < amt) :
    executeTransfer st sid rid amt now =
      .ok ({ st with
              wallets := setBalance (setBalance st.wallets sid (bs - amt))
                rid (br + amt)
              ledger := st.ledger ++ [⟨st.nextTxId, sid, rid, amt, now, ""⟩]
              nextTxId := st.nextTxId + 1 },
           ⟨st.nextTxId, sid, rid, amt, now, ""⟩) := by
  unfold executeTransfer
  dsimp only
  rw [lookupBal_lockWallets st _ sid hN, lookupBal_lockWallets st _ rid hN,
      if_pos (mem_walletLockIds_left sid rid),
      if_pos (mem_walletLockIds_right sid rid), hs, hr]
  simp [hge]

theorem executeTransfer_insufficient {st : St} {sid rid : ℕ} {amt : ℚ}
    {now : ℕ} {bs br : ℚ} (hN : keysNodup st.wallets)
    (hs : lookupBal st.wallets sid = some bs)
    (hr : lookupBal st.wallets rid = some br)
    (hlt : bs < amt) :
    executeTransfer st sid rid amt now = .error .insufficientFunds := by
  unfold executeTransfer
  dsimp only
  rw [lookupBal_lockWallets st _ sid hN, lookupBal_lockWallets st _ rid hN,
      if_pos (mem_walletLockIds_left sid rid),
      if_pos (mem_walletLockIds_right sid rid), hs, hr]
  simp [hlt]

theorem executeTransfer_ok_inv {st st' : St} {sid rid : ℕ} {amt : ℚ}
    {now : ℕ} {txr : Entry}
    (heq : executeTransfer st sid rid amt now = .ok (st', txr)) :
    ∃ bs br,
      lookupBal (lockWallets st (walletLockIds sid rid)) sid = some bs
      ∧ lookupBal (lockWallets st (walletLockIds sid rid)) rid = some br
      ∧ ¬ bs < amt
      ∧ st' = { st with
          wallets := setBalance (setBalance st.wallets sid (bs - amt))
            rid (br + amt)
          ledger := st.ledger ++ [⟨st.nextTxId, sid, rid, amt, now, ""⟩]
          nextTxId := st.nextTxId + 1 }
      ∧ txr = ⟨st.nextTxId, sid, rid, amt, now, ""⟩ := by
  unfold executeTransfer at heq
  dsimp only at heq
  cases hs : lookupBal (lockWallets st (walletLockIds sid rid)) sid with
  | none =>
    rw [hs] at heq
    dsimp only at heq
    cases heq
  | some bs =>
    rw [hs] at heq
    cases hr : lookupBal (lockWallets st (walletLockIds sid rid)) rid with
    | none =>
      rw [hr] at heq
      dsimp only at heq
      cases heq
    | some br =>
      rw [hr] at heq
      dsimp only at heq
      by_cases hlt : bs < amt
      · rw [if_pos hlt] at heq
        cases heq
      · rw [if_neg hlt] at heq
        simp only [Except.ok.injEq, Prod.mk.injEq] at heq
        exact ⟨bs, br, rfl, rfl, hlt, heq.1.symm, heq.2.symm⟩

/-! ### Branch lemmas for `transferPost` -/

theorem transferPost_invalidAmount (st : St) (sid rid : ℕ) (a : String)
    (now : ℕ) (hv : transferAmountValidated a = none) :
    transferPost st sid rid a now = (st, .err .invalidAmount) := by
  unfold transferPost
  rw [hv]

theorem transferPost_self (st : St) (sid : ℕ) (a : String) (now : ℕ) {d : Dec}
    (hv : transferAmountValidated a = some d) :
    transferPost st sid sid a now = (st, .err .selfTransfer) := by
  unfold transferPost
  rw [hv]
  dsimp only
  rw [if_pos rfl]

theorem transferPost_notFound (st : St) (sid rid : ℕ) (a : String) (now : ℕ)
    {d : Dec} (hv : transferAmountValidated a = some d) (hne : rid ≠ sid)
    (hr : rid ∉ st.users) :
    transferPost st sid rid a now = (st, .err .receiverNotFound) := by
  unfold transferPost
  rw [hv]
  dsimp only
  rw [if_neg hne, if_neg hr]

theorem transferPost_insufficient {st : St} {sid rid : ℕ} {a : String}
    {now : ℕ} {d : Dec} (hN : keysNodup st.wallets)
    (hv : transferAmountValidated a = some d)
    (hne : rid ≠ sid) (hr : rid ∈ st.users)
    (hbal : (lookupBal st.wallets sid).getD 0 < d.val) :
    transferPost st sid rid a now =
      ((getOrCreate (getOrCreate st rid).1 sid).1, .err .insufficientFunds) := by
  have hN1 : keysNodup (getOrCreate st rid).1.wallets :=
    keysNodup_getOrCreate rid hN
  have hN2 : keysNodup (getOrCreate (getOrCreate st rid).1 sid).1.wallets :=
    keysNodup_getOrCreate sid hN1
  have hsf : lookupBal (getOrCreate (getOrCreate st rid).1 sid).1.wallets sid
      = some ((lookupBal st.wallets sid).getD 0) := by
    rw [lookupBal_getOrCreate_self,
        lookupBal_getOrCreate_ne st (Ne.symm hne)]
  have hrf : lookupBal (getOrCreate (getOrCreate st rid).1 sid).1.wallets rid
      = some ((lookupBal st.wallets rid).getD 0) := by
    rw [lookupBal_getOrCreate_ne _ hne, lookupBal_getOrCreate_self]
  unfold transferPost
  rw [hv]
  dsimp only
  rw [if_neg hne, if_pos hr]
  rw [executeTransfer_insufficient hN2 hsf hrf hbal]

theorem transferPost_ok {st : St} {sid rid : ℕ} {a : String} {now : ℕ}
    {d : Dec} (hN : keysNodup st.wallets)
    (hv : transferAmountValidated a = some d)
    (hne : rid ≠ sid) (hr : rid ∈ st.users)
    (hbal : ¬ (lookupBal st.wallets sid).getD 0 < d.val) :
    transferPost st sid rid a now =
      ({ (getOrCreate (getOrCreate st rid).1 sid).1 with
          wallets := setBalance
            (setBalance (getOrCreate (getOrCreate st rid).1 sid).1.wallets
              sid ((lookupBal st.wallets sid).getD 0 - d.val))
            rid ((lookupBal st.wallets rid).getD 0 + d.val)
          ledger := st.ledger ++ [⟨st.nextTxId, sid, rid, d.val, now, ""⟩]
          nextTxId := st.nextTxId + 1 },
       .ok ⟨st.nextTxId, sid, rid, d.val, now, ""⟩) := by
  have hN1 : keysNodup (getOrCreate st rid).1.wallets :=
    keysNodup_getOrCreate rid hN
  have hN2 : keysNodup (getOrCreate (getOrCreate st rid).1 sid).1.wallets :=
    keysNodup_getOrCreate sid hN1
  have hsf : lookupBal (getOrCreate (getOrCreate st rid).1 sid).1.wallets sid
      = some ((lookupBal st.wallets sid).getD 0) := by
    rw [lookupBal_getOrCreate_self,
        lookupBal_getOrCreate_ne st (Ne.symm hne)]
  have hrf : lookupBal (getOrCreate (getOrCreate st rid).1 sid).1.wallets rid
      = some ((lookupBal st.wallets rid).getD 0) := by
    rw [lookupBal_getOrCreate_ne _ hne, lookupBal_getOrCreate_self]
  unfold transferPost
  rw [hv]
  dsimp only
  rw [if_neg hne, if_pos hr]
  rw [executeTransfer_ok hN2 hsf hrf hbal]
  dsimp only
  rw [getOrCreate_ledger, getOrCreate_ledger,
      getOrCreate_nextTxId, getOrCreate_nextTxId]

/-! ### Lemmas about save-time quantization -/

theorem roundHalfEven_intCast (k : ℤ) : roundHalfEven (k : ℚ) = k := by
  unfold roundHalfEven
  rw [Rat.num_intCast, Rat.den_intCast]
  dsimp only
  have h1 : Int.ediv k ((1 : ℕ) : ℤ) = k := Int.ediv_one k
  rw [h1]
  split_ifs <;> omega

theorem roundHalfEven_nonneg {w : ℚ} (hw : 0 ≤ w) : 0 ≤ roundHalfEven w := by
  unfold roundHalfEven
  have hnum : 0 ≤ w.num := Rat.num_nonneg.mpr hw
  have hden : (0 : ℤ) < w.den := by exact_mod_cast w.den_pos
  have hf : 0 ≤ Int.ediv w.num w.den := Int.ediv_nonneg hnum (le_of_lt hden)
  dsimp only
  split_ifs <;> omega

theorem quantize2_exact {v q : ℚ} (hv : onCents v) (hq : quantize2 v = some q) :
    q = v := by
  obtain ⟨k, hk⟩ := hv
  unfold quantize2 at hq
  dsimp only at hq
  rw [hk, roundHalfEven_intCast] at hq
  by_cases hd : digitCount k.natAbs ≤ 19
  · rw [if_pos hd] at hq
    have hqk : ((k : ℚ) / 100) = q := Option.some_injective _ hq
    have hvk : v = (k : ℚ) / 100 := by
      rw [eq_div_iff (by norm_num : (100 : ℚ) ≠ 0)]
      exact hk
    rw [← hqk, hvk]
  · rw [if_neg hd] at hq
    cases hq

theorem quantize2_nonneg {v q : ℚ} (hv : 0 ≤ v) (hq : quantize2 v = some q) :
    0 ≤ q := by
  have hw : 0 ≤ v * 100 := mul_nonneg hv (by norm_num)
  have hn : 0 ≤ roundHalfEven (v * 100) := roundHalfEven_nonneg hw
  unfold quantize2 at hq
  dsimp only at hq
  by_cases hd : digitCount (roundHalfEven (v * 100)).natAbs ≤ 19
  · rw [if_pos hd] at hq
    have hqk := Option.some_injective _ hq
    rw [← hqk]
    have : (0 : ℚ) ≤ (roundHalfEven (v * 100) : ℚ) := by exact_mod_cast hn
    exact div_nonneg this (by norm_num)
  · rw [if_neg hd] at hq
    cases hq

theorem onCents_add {a b : ℚ} (ha : onCents a) (hb : onCents b) :
    onCents (a + b) := by
  obtain ⟨k₁, h₁⟩ := ha
  obtain ⟨k₂, h₂⟩ := hb
  refine ⟨k₁ + k₂, ?_⟩
  push_cast
  rw [add_mul, h₁, h₂]

theorem onCents_of_val {d : Dec} (he : d.e ≤ 2) : onCents d.val := by
  refine ⟨d.m * 10 ^ (2 - d.e), ?_⟩
  have h10 : ((10 : ℚ) ^ d.e) ≠ 0 := by positivity
  have hp : (10 : ℚ) ^ (2 - d.e) * 10 ^ d.e = 100 := by
    rw [← pow_add]
    have he2 : 2 - d.e + d.e = 2 := by omega
    rw [he2]
    norm_num
  unfold Dec.val
  push_cast
  rw [div_mul_eq_mul_div, div_eq_iff h10, mul_assoc, hp]

/-! ### Frame and invariant-preservation helpers -/

theorem generateTransactionReceipt_wallets (st : St) (txId : ℕ)
    (path : String) :
    (generateTransactionReceipt st txId path).1.wallets = st.wallets := by
  unfold generateTransactionReceipt
  cases st.ledger.find? (fun t => t.id == txId) <;> rfl

theorem addUser_wallets (st : St) (uid : ℕ) :
    ({ st with users := st.users ++ [uid] } : St).wallets = st.wallets := rfl

theorem getOrCreate_wallets_nonneg {st : St} (uid : ℕ)
    (ih : ∀ p ∈ st.wallets, 0 ≤ p.2) :
    ∀ p ∈ (getOrCreate st uid).1.wallets, 0 ≤ p.2 := by
  intro p hp
  rcases mem_getOrCreate_wallets uid hp with h | h
  · exact ih p h
  · rw [h]

theorem getOrCreate_balance_nonneg {st : St} (uid : ℕ)
    (ih : ∀ p ∈ st.wallets, 0 ≤ p.2) : 0 ≤ (getOrCreate st uid).2 := by
  rw [getOrCreate_balance]
  cases h : lookupBal st.wallets uid with
  | none => simp
  | some b => simpa using ih (uid, b) (mem_of_lookupBal_eq_some h)

theorem depositPost_wallets_nonneg {st : St} (uid : ℕ) (a : Option String)
    (ih : ∀ p ∈ st.wallets, 0 ≤ p.2) :
    ∀ p ∈ (depositPost st uid a).1.wallets, 0 ≤ p.2 := by
  unfold depositPost
  cases a with
  | none => exact ih
  | some s =>
    dsimp only
    cases hp : pyDecParse s with
    | none => exact ih
    | some pd =>
      cases pd with
      | nan => exact ih
      | inf neg => cases neg <;> exact ih
      | finite d =>
        dsimp only
        by_cases hval : d.val ≤ 0
        · rw [if_pos hval]
          exact ih
        · rw [if_neg hval]
          cases hq : quantize2 ((getOrCreate st uid).2 + d.val) with
          | none => exact ih
          | some q =>
            intro p hp'
            rcases mem_setBalance hp' with h | h
            · rw [h]
              have h0 : 0 ≤ (getOrCreate st uid).2 :=
                getOrCreate_balance_nonneg uid ih
              have h1 : 0 < d.val := lt_of_not_le hval
              simpa using quantize2_nonneg (add_nonneg h0 (le_of_lt h1)) hq
            · exact getOrCreate_wallets_nonneg uid ih p h

theorem transferPost_wallets_nonneg {st : St} (sid rid : ℕ) (a : String)
    (now : ℕ) (ih : ∀ p ∈ st.wallets, 0 ≤ p.2) :
    ∀ p ∈ (transferPost st sid rid a now).1.wallets, 0 ≤ p.2 := by
  unfold transferPost
  cases hv : transferAmountValidated a with
  | none => exact ih
  | some d =>
    dsimp only
    by_cases hself : rid = sid
    · rw [if_pos hself]
      exact ih
    · rw [if_neg hself]
      by_cases hmem : rid ∈ st.users
      · rw [if_pos hmem]
        have ih2 : ∀ p ∈ (getOrCreate (getOrCreate st rid).1 sid).1.wallets,
            0 ≤ p.2 :=
          getOrCreate_wallets_nonneg sid (getOrCreate_wallets_nonneg rid ih)
        cases hex : executeTransfer (getOrCreate (getOrCreate st rid).1 sid).1
            sid rid d.val now with
        | error e => cases e <;> exact ih2
        | ok pr =>
          obtain ⟨st3, txr⟩ := pr
          dsimp only
          obtain ⟨bs, br, hbs, hbr, hge, hst3, -⟩ := executeTransfer_ok_inv hex
          subst hst3
          intro p hp
          rcases mem_setBalance hp with h | h
          · rw [h]
            have hbr0 : 0 ≤ br := by
              simpa using ih2 (rid, br)
                (mem_lockWallets (mem_of_lookupBal_eq_some hbr))
            have hamt : 0 < d.val := transferAmountValidated_pos hv
            simpa using add_nonneg hbr0 (le_of_lt hamt)
          rcases mem_setBalance h with h' | h'
          · rw [h']
            have : d.val ≤ bs := not_lt.mp hge
            simpa using sub_nonneg.mpr this
          · exact ih2 p h'
      · rw [if_neg hmem]
        exact ih

theorem transferPost_ledger_extends (st : St) (sid rid : ℕ) (a : String)
    (now : ℕ) :
    ∃ t, (transferPost st sid rid a now).1.ledger = st.ledger ++ t := by
  unfold transferPost
  cases hv : transferAmountValidated a with
  | none => exact ⟨[], by simp⟩
  | some d =>
    dsimp only
    by_cases hself : rid = sid
    · rw [if_pos hself]
      exact ⟨[], by simp⟩
    · rw [if_neg hself]
      by_cases hmem : rid ∈ st.users
      · rw [if_pos hmem]
        cases hex : executeTransfer (getOrCreate (getOrCreate st rid).1 sid).1
            sid rid d.val now with
        | error e =>
          cases e <;>
            exact ⟨[], by rw [getOrCreate_ledger, getOrCreate_ledger]; simp⟩
        | ok pr =>
          obtain ⟨st3, txr⟩ := pr
          dsimp only
          obtain ⟨bs, br, -, -, -, hst3, -⟩ := executeTransfer_ok_inv hex
          subst hst3
          refine ⟨[⟨st.nextTxId, sid, rid, d.val, now, ""⟩], ?_⟩
          dsimp only
          rw [getOrCreate_ledger, getOrCreate_ledger,
              getOrCreate_nextTxId, getOrCreate_nextTxId]
      · rw [if_neg hmem]
        exact ⟨[], by simp⟩

theorem depositPost_ledger (st : St) (uid : ℕ) (a : Option String) :
    (depositPost st uid a).1.ledger = st.ledger := by
  unfold depositPost
  cases a with
  | none => rfl
  | some s =>
    dsimp only
    cases hp : pyDecParse s with
    | none => rfl
    | some pd =>
      cases pd with
      | nan => rfl
      | inf neg => cases neg <;> rfl
      | finite d =>
        dsimp only
        by_cases hval : d.val ≤ 0
        · rw [if_pos hval]
        · rw [if_neg hval]
          cases hq : quantize2 ((getOrCreate st uid).2 + d.val) with
          | none => rfl
          | some q => exact getOrCreate_ledger st uid

theorem depositPost_ok_effects (st : St) (uid : ℕ) (s : String) (d : Dec)
    (q : ℚ) (hp : pyDecParse s = some (.finite d)) (hpos : 0 < d.val)
    (hq : quantize2 ((lookupBal st.wallets uid).getD 0 + d.val) = some q) :
    (depositPost st uid (some s)).2
        = .ok ((lookupBal st.wallets uid).getD 0 + d.val)
    ∧ lookupBal (depositPost st uid (some s)).1.wallets uid = some q
    ∧ (depositPost st uid (some s)).1.ledger = st.ledger := by
  have hnneg : ¬ d.val ≤ 0 := not_le.mpr hpos
  have hq' : quantize2 ((getOrCreate st uid).2 + d.val) = some q := by
    rw [getOrCreate_balance]
    exact hq
  unfold depositPost
  dsimp only
  rw [hp]
  dsimp only
  rw [if_neg hnneg, hq', getOrCreate_balance]
  refine ⟨rfl, ?_, getOrCreate_ledger st uid⟩
  have hmem : uid ∈ ((getOrCreate st uid).1.wallets).map Prod.fst :=
    List.mem_map.mpr
      ⟨_, mem_of_lookupBal_eq_some (lookupBal_getOrCreate_self st uid), rfl⟩
  rw [lookupBal_setBalance_self, if_pos hmem]

/-! ### Claim theorems -/

section ClaimTheorems

attribute [local semireducible] Rat.add Rat.sub Rat.mul Rat.inv Rat.ofScientific

/-- C3: for distinct user ids `a` and `b`, the lock step computes the same
id sequence whichever of the two is the sender, that sequence is the lower
id first, and the locked wallet rows come back sorted ascending by user
id. -/
theorem lock_order_ascending (st : St) (a b : ℕ) (_hab : a ≠ b) :
    walletLockIds a b = walletLockIds b a
    ∧ walletLockIds a b = [min a b, max a b]
    ∧ ((lockWallets st (walletLockIds a b)).map Prod.fst).Sorted (· ≤ ·) := by
  have key : ∀ x y : ℕ, walletLockIds x y = [min x y, max x y] := by
    intro x y
    unfold walletLockIds
    by_cases h : x ≤ y
    · rw [if_pos h, Nat.min_eq_left h, Nat.max_eq_right h]
    · have h' : y ≤ x := Nat.le_of_not_le h
      rw [if_neg h, Nat.min_eq_right h', Nat.max_eq_left h']
  refine ⟨?_, key a b, ?_⟩
  · rw [key a b, key b a, Nat.min_comm, Nat.max_comm]
  · have hs : (lockWallets st (walletLockIds a b)).Sorted byUserId :=
      List.sorted_insertionSort byUserId _
    exact List.Pairwise.map Prod.fst (fun x y hxy => hxy) hs

theorem lock_order_ascending_witness :
    walletLockIds 2 1 = walletLockIds 1 2
    ∧ walletLockIds 2 1 = [min 2 1, max 2 1]
    ∧ ((lockWallets ⟨[1, 2], [(2, 50), (1, 100)], [], 0⟩
          (walletLockIds 2 1)).map Prod.fst).Sorted (· ≤ ·) :=
  lock_order_ascending ⟨[1, 2], [(2, 50), (1, 100)], [], 0⟩ 2 1 (by decide)

/-- C4: a transfer whose receiver equals the sender leaves the state
untouched and fails with an InvalidOperation-class error, whatever the
amount and balances; when the amount passes validation the error is
precisely the self-transfer rejection. -/
theorem self_transfer_rejected (st : St) (sid : ℕ) (a : String) (now : ℕ) :
    (transferPost st sid sid a now).1 = st
    ∧ ∃ e, (transferPost st sid sid a now).2 = .err e
        ∧ e.isInvalidOperation = true
        ∧ ∀ d : Dec, transferAmountValidated a = some d → e = .selfTransfer := by
  cases hv : transferAmountValidated a with
  | none =>
    rw [transferPost_invalidAmount st sid sid a now hv]
    exact ⟨rfl, .invalidAmount, rfl, rfl, fun d hd => by cases hd⟩
  | some d =>
    rw [transferPost_self st sid a now hv]
    exact ⟨rfl, .selfTransfer, rfl, rfl, fun d' hd => rfl⟩

theorem self_transfer_rejected_witness :
    (transferPost ⟨[1], [(1, 100)], [], 0⟩ 1 1 "30.00" 0).1
        = ⟨[1], [(1, 100)], [], 0⟩
    ∧ ∃ e, (transferPost ⟨[1], [(1, 100)], [], 0⟩ 1 1 "30.00" 0).2 = .err e
        ∧ e.isInvalidOperation = true
        ∧ ∀ d : Dec, transferAmountValidated "30.00" = some d
            → e = .selfTransfer :=
  self_transfer_rejected ⟨[1], [(1, 100)], [], 0⟩ 1 "30.00" 0

/-- C5: a transfer amount that parses to a non-positive value or to more
than two fractional digits is rejected by the serializer as
InvalidOperation, before any wallet creation or locking, with the state
returned exactly as it was. -/
theorem invalid_amount_rejected (st : St) (sid rid : ℕ) (a : String)
    (now : ℕ) (d : Dec) (hp : decParse a = some d)
    (hbad : d.val ≤ 0 ∨ 2 < d.e) :
    transferPost st sid rid a now = (st, .err .invalidAmount) := by
  apply transferPost_invalidAmount
  unfold transferAmountValidated
  rw [hp]
  simp only [Option.some_bind]
  rw [if_neg]
  intro hc
  rcases hbad with hval | he
  · have h1 : (0 : ℚ) < 1 / 100 := by norm_num
    have h2 := hc.2
    linarith
  · have h2 : validatePrecision d = true := hc.1
    unfold validatePrecision at h2
    simp only [Bool.and_eq_true, decide_eq_true_eq] at h2
    omega

theorem invalid_amount_rejected_witness :
    transferPost ⟨[1, 2], [(1, 100)], [], 0⟩ 1 2 "0.001" 0
      = (⟨[1, 2], [(1, 100)], [], 0⟩, .err .invalidAmount) :=
  invalid_amount_rejected ⟨[1, 2], [(1, 100)], [], 0⟩ 1 2 "0.001" 0
    ⟨1, 3⟩ (by decide) (Or.inr (by decide))

/-- C6: a transfer to a receiver id that matches no existing user fails
with the not-found error and returns the state exactly as it was — no
wallet rows appear and the ledger is untouched. -/
theorem unknown_receiver_rejected (st : St) (sid rid : ℕ) (a : String)
    (now : ℕ) (d : Dec) (hv : transferAmountValidated a = some d)
    (hne : rid ≠ sid) (hr : rid ∉ st.users) :
    transferPost st sid rid a now = (st, .err .receiverNotFound) :=
  transferPost_notFound st sid rid a now hv hne hr

theorem unknown_receiver_rejected_witness :
    transferPost ⟨[1], [(1, 100)], [], 0⟩ 1 2 "30.00" 0
      = (⟨[1], [(1, 100)], [], 0⟩, .err .receiverNotFound) :=
  unknown_receiver_rejected ⟨[1], [(1, 100)], [], 0⟩ 1 2 "30.00" 0
    ⟨3000, 2⟩ (by decide) (by decide) (by decide)

/-- C8 counterexample: a deposit of 0.001 onto a balance of 100.00 is
accepted (the 200 response even reports 100.001), but the persisted
wallet row still holds 100.00 — `Wallet.save` quantizes the stored
balance to two decimal places — so the balance is not increased by
exactly the amount, refuting the claim's "increased by exactly amount
and persisted" for amounts with more than two fractional digits. -/
theorem deposit_exact_amount_cex :
    (depositPost ⟨[1], [(1, 100)], [], 0⟩ 1 (some "0.001")).2
        = .ok (100 + (Dec.mk 1 3).val)
    ∧ lookupBal (depositPost ⟨[1], [(1, 100)], [], 0⟩ 1
        (some "0.001")).1.wallets 1 = some 100
    ∧ ¬ ((100 : ℚ) + (Dec.mk 1 3).val = 100) := by
  decide

/-- C8 amended: a deposit of a parsable finite positive amount whose
quantized result fits the column reports the unquantized new balance
`old + amount`, persists the balance quantized to two decimal places
(half-even) — equal to `old + amount` exactly when the amount has at
most two fractional digits and the old balance is a whole number of
cents — creates the wallet at zero first when absent, and never touches
the ledger. -/
theorem deposit_effects_amended (st : St) (uid : ℕ) (s : String) (d : Dec)
    (q : ℚ) (hp : pyDecParse s = some (.finite d)) (hpos : 0 < d.val)
    (hq : quantize2 ((lookupBal st.wallets uid).getD 0 + d.val) = some q) :
    (depositPost st uid (some s)).2
        = .ok ((lookupBal st.wallets uid).getD 0 + d.val)
    ∧ lookupBal (depositPost st uid (some s)).1.wallets uid = some q
    ∧ (depositPost st uid (some s)).1.ledger = st.ledger
    ∧ (d.e ≤ 2 → onCents ((lookupBal st.wallets uid).getD 0) →
        q = (lookupBal st.wallets uid).getD 0 + d.val) := by
  obtain ⟨h1, h2, h3⟩ := depositPost_ok_effects st uid s d q hp hpos hq
  exact ⟨h1, h2, h3, fun he hc =>
    quantize2_exact (onCents_add hc (onCents_of_val he)) hq⟩

theorem deposit_effects_amended_witness :
    (depositPost ⟨[1], [(1, 100)], [], 0⟩ 1 (some "50.00")).2
        = .ok ((lookupBal [(1, 100)] 1).getD 0 + (Dec.mk 5000 2).val)
    ∧ lookupBal (depositPost ⟨[1], [(1, 100)], [], 0⟩ 1
        (some "50.00")).1.wallets 1 = some 150
    ∧ (depositPost ⟨[1], [(1, 100)], [], 0⟩ 1 (some "50.00")).1.ledger = []
    ∧ ((Dec.mk 5000 2).e ≤ 2 → onCents ((lookupBal [(1, 100)] 1).getD 0) →
        (150 : ℚ) = (lookupBal [(1, 100)] 1).getD 0 + (Dec.mk 5000 2).val) :=
  deposit_effects_amended ⟨[1], [(1, 100)], [], 0⟩ 1 "50.00" ⟨5000, 2⟩ 150
    (by decide) (by decide) (by decide)

/-- C9: the receipt backfill task changes only the receipt-path field of
the targeted ledger entry — id, sender, receiver, amount and timestamp of
every entry are untouched, as are the wallets — and no other exposed
operation rewrites or deletes an existing ledger entry: transfers only
append, deposits and balance queries leave the ledger unchanged. -/
theorem ledger_immutable :
    (∀ (st : St) (txId : ℕ) (path : String) (i : ℕ),
        ((generateTransactionReceipt st txId path).1.ledger[i]?).map entryData
          = (st.ledger[i]?).map entryData)
    ∧ (∀ (st : St) (txId : ℕ) (path : String),
        (generateTransactionReceipt st txId path).1.wallets = st.wallets)
    ∧ (∀ (st : St) (sid rid : ℕ) (a : String) (now : ℕ),
        ∃ t, (transferPost st sid rid a now).1.ledger = st.ledger ++ t)
    ∧ (∀ (st : St) (uid : ℕ) (a : Option String),
        (depositPost st uid a).1.ledger = st.ledger)
    ∧ (∀ (st : St) (uid : ℕ), (getOrCreate st uid).1.ledger = st.ledger) := by
  refine ⟨?_, generateTransactionReceipt_wallets,
    transferPost_ledger_extends, depositPost_ledger, getOrCreate_ledger⟩
  intro st txId path i
  unfold generateTransactionReceipt
  cases hf : st.ledger.find? (fun t => t.id == txId) with
  | none => rfl
  | some t0 =>
    dsimp only
    rw [List.getElem?_map]
    cases st.ledger[i]? with
    | none => rfl
    | some t =>
      by_cases ht : t.id = txId
      · simp [ht, entryData]
      · simp [ht]

/-- C10 counterexample: "NaN" is parsable as a Python decimal and is not
missing, unparsable or ≤ 0, so the claim requires the deposit of it to
be accepted; instead the view's `amount <= 0` comparison signals an
`InvalidOperation` that no handler catches, and the request dies with an
unhandled exception (a 500, not a 400 rejection and not a deposit). -/
theorem deposit_nan_cex :
    pyDecParse "NaN" = some PyDec.nan
    ∧ depositPost ⟨[1], [(1, 100)], [], 0⟩ 1 (some "NaN")
        = (⟨[1], [(1, 100)], [], 0⟩, .serverError) := by
  decide

/-- C10 amended: deposit rejects a request with a 400 error and no state
change exactly when the amount is missing, not parsable as a Python
decimal (underscore-grouped digits such as "1_000" do parse), or parses
to a non-positive finite value or negative infinity; a parsed NaN or
positive infinity — and a finite amount whose quantized result
overflows the column precision — instead raises an unhandled error with
no state change.  A positive finite amount with more than two fractional
digits (e.g. 0.001) is accepted by deposit — the two-fractional-digit
restriction enforced on transfer amounts is not enforced for deposits —
and counted in full in the reported balance, though the persisted
balance is quantized at save. -/
theorem deposit_validation_amended (st : St) (uid : ℕ) :
    depositPost st uid none = (st, .err "Amount is required")
    ∧ (∀ s, pyDecParse s = none →
        depositPost st uid (some s) = (st, .err "Invalid amount"))
    ∧ (∀ s, pyDecParse s = some .nan →
        depositPost st uid (some s) = (st, .serverError))
    ∧ (∀ s, pyDecParse s = some (.inf false) →
        depositPost st uid (some s) = (st, .serverError))
    ∧ (∀ s, pyDecParse s = some (.inf true) →
        depositPost st uid (some s) = (st, .err "Amount must be positive"))
    ∧ (∀ s d, pyDecParse s = some (.finite d) → d.val ≤ 0 →
        depositPost st uid (some s) = (st, .err "Amount must be positive"))
    ∧ (∀ s d, pyDecParse s = some (.finite d) → 0 < d.val →
        (quantize2 ((lookupBal st.wallets uid).getD 0 + d.val) = none →
          depositPost st uid (some s) = (st, .serverError))
        ∧ ∀ q, quantize2 ((lookupBal st.wallets uid).getD 0 + d.val) = some q →
            (depositPost st uid (some s)).2
                = .ok ((lookupBal st.wallets uid).getD 0 + d.val)
            ∧ lookupBal (depositPost st uid (some s)).1.wallets uid = some q)
    ∧ pyDecParse "0.001" = some (.finite ⟨1, 3⟩)
    ∧ (0 : ℚ) < (Dec.mk 1 3).val
    ∧ transferAmountValidated "0.001" = none
    ∧ pyDecParse "1_000" = some (.finite ⟨1000, 0⟩) := by
  refine ⟨rfl, ?_, ?_, ?_, ?_, ?_, ?_,
    by decide, by decide, by decide, by decide⟩
  · intro s hs
    unfold depositPost
    dsimp only
    rw [hs]
  · intro s hs
    unfold depositPost
    dsimp only
    rw [hs]
  · intro s hs
    unfold depositPost
    dsimp only
    rw [hs]
  · intro s hs
    unfold depositPost
    dsimp only
    rw [hs]
  · intro s d hs hle
    unfold depositPost
    dsimp only
    rw [hs]
    dsimp only
    rw [if_pos hle]
  · intro s d hs hpos
    constructor
    · intro hqn
      have hq' : quantize2 ((getOrCreate st uid).2 + d.val) = none := by
        rw [getOrCreate_balance]
        exact hqn
      unfold depositPost
      dsimp only
      rw [hs]
      dsimp only
      rw [if_neg (not_le.mpr hpos), hq']
    · intro q hq
      exact ⟨(depositPost_ok_effects st uid s d q hs hpos hq).1,
        (depositPost_ok_effects st uid s d q hs hpos hq).2.1⟩

theorem deposit_validation_amended_witness :
    depositPost ⟨[1], [(1, 100)], [], 0⟩ 1 none
        = (⟨[1], [(1, 100)], [], 0⟩, .err "Amount is required")
    ∧ (∀ s, pyDecParse s = none →
        depositPost ⟨[1], [(1, 100)], [], 0⟩ 1 (some s)
          = (⟨[1], [(1, 100)], [], 0⟩, .err "Invalid amount"))
    ∧ (∀ s, pyDecParse s = some .nan →
        depositPost ⟨[1], [(1, 100)], [], 0⟩ 1 (some s)
          = (⟨[1], [(1, 100)], [], 0⟩, .serverError))
    ∧ (∀ s, pyDecParse s = some (.inf false) →
        depositPost ⟨[1], [(1, 100)], [], 0⟩ 1 (some s)
          = (⟨[1], [(1, 100)], [], 0⟩, .serverError))
    ∧ (∀ s, pyDecParse s = some (.inf true) →
        depositPost ⟨[1], [(1, 100)], [], 0⟩ 1 (some s)
          = (⟨[1], [(1, 100)], [], 0⟩, .err "Amount must be positive"))
    ∧ (∀ s d, pyDecParse s = some (.finite d) → d.val ≤ 0 →
        depositPost ⟨[1], [(1, 100)], [], 0⟩ 1 (some s)
          = (⟨[1], [(1, 100)], [], 0⟩, .err "Amount must be positive"))
    ∧ (∀ s d, pyDecParse s = some (.finite d) → 0 < d.val →
        (quantize2 ((lookupBal [(1, 100)] 1).getD 0 + d.val) = none →
          depositPost ⟨[1], [(1, 100)], [], 0⟩ 1 (some s)
            = (⟨[1], [(1, 100)], [], 0⟩, .serverError))
        ∧ ∀ q, quantize2 ((lookupBal [(1, 100)] 1).getD 0 + d.val) = some q →
            (depositPost ⟨[1], [(1, 100)], [], 0⟩ 1 (some s)).2
                = .ok ((lookupBal [(1, 100)] 1).getD 0 + d.val)
            ∧ lookupBal (depositPost ⟨[1], [(1, 100)], [], 0⟩ 1
                (some s)).1.wallets 1 = some q)
    ∧ pyDecParse "0.001" = some (.finite ⟨1, 3⟩)
    ∧ (0 : ℚ) < (Dec.mk 1 3).val
    ∧ transferAmountValidated "0.001" = none
    ∧ pyDecParse "1_000" = some (.finite ⟨1000, 0⟩) :=
  deposit_validation_amended ⟨[1], [(1, 100)], [], 0⟩ 1

/-- C1: a transfer that passes validation, whose receiver exists and is
not the sender, and whose sender balance covers the amount, returns the
single ledger entry recording sender, receiver and amount; that entry is
appended to the ledger, the sender's balance drops by exactly the amount
and the receiver's rises by exactly the amount, both in the returned
(persisted) state. -/
theorem transfer_success_effects (st : St) (sid rid : ℕ) (a : String)
    (now : ℕ) (d : Dec) (hN : keysNodup st.wallets)
    (hv : transferAmountValidated a = some d) (hne : rid ≠ sid)
    (hr : rid ∈ st.users)
    (hbal : d.val ≤ (lookupBal st.wallets sid).getD 0) :
    (transferPost st sid rid a now).2
        = .ok ⟨st.nextTxId, sid, rid, d.val, now, ""⟩
    ∧ (transferPost st sid rid a now).1.ledger
        = st.ledger ++ [⟨st.nextTxId, sid, rid, d.val, now, ""⟩]
    ∧ lookupBal (transferPost st sid rid a now).1.wallets sid
        = some ((lookupBal st.wallets sid).getD 0 - d.val)
    ∧ lookupBal (transferPost st sid rid a now).1.wallets rid
        = some ((lookupBal st.wallets rid).getD 0 + d.val) := by
  have hge : ¬ (lookupBal st.wallets sid).getD 0 < d.val := not_lt.mpr hbal
  have hsf : lookupBal (getOrCreate (getOrCreate st rid).1 sid).1.wallets sid
      = some ((lookupBal st.wallets sid).getD 0) := by
    rw [lookupBal_getOrCreate_self, lookupBal_getOrCreate_ne st (Ne.symm hne)]
  have hrf : lookupBal (getOrCreate (getOrCreate st rid).1 sid).1.wallets rid
      = some ((lookupBal st.wallets rid).getD 0) := by
    rw [lookupBal_getOrCreate_ne _ hne, lookupBal_getOrCreate_self]
  rw [transferPost_ok hN hv hne hr hge]
  refine ⟨rfl, rfl, ?_, ?_⟩
  · have hmem : sid ∈
        ((getOrCreate (getOrCreate st rid).1 sid).1.wallets).map Prod.fst :=
      List.mem_map.mpr ⟨_, mem_of_lookupBal_eq_some hsf, rfl⟩
    rw [lookupBal_setBalance_ne _ _ (Ne.symm hne),
        lookupBal_setBalance_self, if_pos hmem]
  · have hmem : rid ∈
        ((getOrCreate (getOrCreate st rid).1 sid).1.wallets).map Prod.fst :=
      List.mem_map.mpr ⟨_, mem_of_lookupBal_eq_some hrf, rfl⟩
    rw [lookupBal_setBalance_self, setBalance_keys, if_pos hmem]

theorem transfer_success_effects_witness :
    (transferPost ⟨[1, 2], [(1, 100), (2, 5)], [], 0⟩ 1 2 "30.00" 0).2
        = .ok ⟨0, 1, 2, (Dec.mk 3000 2).val, 0, ""⟩
    ∧ (transferPost ⟨[1, 2], [(1, 100), (2, 5)], [], 0⟩ 1 2 "30.00" 0).1.ledger
        = [⟨0, 1, 2, (Dec.mk 3000 2).val, 0, ""⟩]
    ∧ lookupBal (transferPost ⟨[1, 2], [(1, 100), (2, 5)], [], 0⟩
          1 2 "30.00" 0).1.wallets 1 = some (100 - (Dec.mk 3000 2).val)
    ∧ lookupBal (transferPost ⟨[1, 2], [(1, 100), (2, 5)], [], 0⟩
          1 2 "30.00" 0).1.wallets 2 = some (5 + (Dec.mk 3000 2).val) :=
  transfer_success_effects ⟨[1, 2], [(1, 100), (2, 5)], [], 0⟩ 1 2 "30.00" 0
    ⟨3000, 2⟩ (by decide) (by decide) (by decide) (by decide) (by decide)

/-- C2 counterexample: with sender 1 at balance 0 and receiver 2 owning
no wallet yet, a transfer of 10.00 fails with InsufficientFunds and the
ledger stays empty, but the wallet row freshly created for user 2 — part
of the claim's step 1 — persists in the resulting state, although no
wallet row for user 2 existed before.  This refutes the claim that the
create-if-absent wallet creation of step 1 is rolled back. -/
theorem transfer_insufficient_wallet_persists :
    (transferPost ⟨[1, 2], [(1, 0)], [], 0⟩ 1 2 "10.00" 0).2
        = .err .insufficientFunds
    ∧ (transferPost ⟨[1, 2], [(1, 0)], [], 0⟩ 1 2 "10.00" 0).1.ledger = []
    ∧ ((2 : ℕ), (0 : ℚ)) ∈
        (transferPost ⟨[1, 2], [(1, 0)], [], 0⟩ 1 2 "10.00" 0).1.wallets
    ∧ (2 : ℕ) ∉ ([((1 : ℕ), (0 : ℚ))].map Prod.fst) := by
  decide

/-- C2 amended: when the sender's balance under lock is below the
amount, the transfer fails with InsufficientFunds and the atomic unit is
rolled back — the ledger is unchanged and every wallet balance present
before the call is unchanged — but the create-if-absent wallet creation
of step 1 runs before the atomic block, so zero-balance wallet rows
created for the sender or receiver persist. -/
theorem transfer_insufficient_rollback (st : St) (sid rid : ℕ) (a : String)
    (now : ℕ) (d : Dec) (hN : keysNodup st.wallets)
    (hv : transferAmountValidated a = some d) (hne : rid ≠ sid)
    (hr : rid ∈ st.users)
    (hbal : (lookupBal st.wallets sid).getD 0 < d.val) :
    (transferPost st sid rid a now).2 = .err .insufficientFunds
    ∧ (transferPost st sid rid a now).1.ledger = st.ledger
    ∧ (∀ uid b, lookupBal st.wallets uid = some b →
        lookupBal (transferPost st sid rid a now).1.wallets uid = some b)
    ∧ ∀ p ∈ (transferPost st sid rid a now).1.wallets,
        p ∈ st.wallets ∨ (p.2 = 0 ∧ (p.1 = sid ∨ p.1 = rid)) := by
  rw [transferPost_insufficient hN hv hne hr hbal]
  refine ⟨rfl, ?_, ?_, ?_⟩
  · dsimp only
    rw [getOrCreate_ledger, getOrCreate_ledger]
  · intro uid b hb
    exact lookupBal_getOrCreate_mono sid (lookupBal_getOrCreate_mono rid hb)
  · intro p hp
    rcases mem_getOrCreate_wallets sid hp with h1 | h1
    · rcases mem_getOrCreate_wallets rid h1 with h2 | h2
      · exact Or.inl h2
      · exact Or.inr ⟨by rw [h2], Or.inr (by rw [h2])⟩
    · exact Or.inr ⟨by rw [h1], Or.inl (by rw [h1])⟩

theorem transfer_insufficient_rollback_witness :
    (transferPost ⟨[1, 2], [(1, 0)], [], 0⟩ 1 2 "10.00" 0).2
        = .err .insufficientFunds
    ∧ (transferPost ⟨[1, 2], [(1, 0)], [], 0⟩ 1 2 "10.00" 0).1.ledger = []
    ∧ (∀ uid b, lookupBal [(1, 0)] uid = some b →
        lookupBal (transferPost ⟨[1, 2], [(1, 0)], [], 0⟩
          1 2 "10.00" 0).1.wallets uid = some b)
    ∧ ∀ p ∈ (transferPost ⟨[1, 2], [(1, 0)], [], 0⟩ 1 2 "10.00" 0).1.wallets,
        p ∈ [((1 : ℕ), (0 : ℚ))] ∨ (p.2 = 0 ∧ (p.1 = 1 ∨ p.1 = 2)) :=
  transfer_insufficient_rollback ⟨[1, 2], [(1, 0)], [], 0⟩ 1 2 "10.00" 0
    ⟨1000, 2⟩ (by decide) (by decide) (by decide) (by decide) (by decide)

/-- C7: in every state reachable through the exposed operations — initial
population, user creation, balance queries (get-or-create), deposits,
transfers and receipt backfill — every wallet balance is non-negative:
wallets are created at zero, deposits add only validated positive
amounts, and a transfer debits only after the under-lock balance check
succeeds. -/
theorem balances_nonneg (st : St) (hst : Reachable st) :
    ∀ p ∈ st.wallets, 0 ≤ p.2 := by
  induction hst with
  | init users => intro p hp; cases hp
  | addUser uid h ih => exact ih
  | balanceQuery uid h ih => exact getOrCreate_wallets_nonneg _ ih
  | deposit uid a h ih => exact depositPost_wallets_nonneg _ _ ih
  | transfer sid rid a now h ih => exact transferPost_wallets_nonneg _ _ _ _ ih
  | receipt txId path h ih =>
    rw [generateTransactionReceipt_wallets]
    exact ih

theorem balances_nonneg_witness : (0 : ℚ) ≤ ((1 : ℕ), (50 : ℚ)).2 :=
  balances_nonneg _
    (Reachable.deposit 1 (some "50") (Reachable.init [1]))
    (1, 50) (by decide)

end ClaimTheorems

end WalletApp
